import Mathlib

/-!
Verification of the flashrom_tester hardware qualification harness
(util/flashrom_tester).  Strings are modelled as lists of characters;
Rust i64 values are modelled as Int with Rust truncated division
(Int.tdiv / Int.tmod) and two's-complement hex formatting where the
source formats signed integers.  Fallible Rust functions returning
Result are modelled with Except; a Rust panic is modelled by Option,
with none standing for the panic.
-/

namespace CrosFlashrom

/-- Characters of a string literal, the model of a Rust string. -/
def str (s : String) : List Char := s.data

/-! ## Hexadecimal formatting and reading -/

/-- Lowercase hex digit for a value below 16 (0-9 then a-f), as produced
by the Rust formatter. -/
def hexDigitChar (d : Nat) : Char :=
  if d < 10 then Char.ofNat (48 + d) else Char.ofNat (87 + d)

/-- Big-endian hex digits of a positive number; the first argument is
fuel, sufficient whenever it is at least the number itself. -/
def natToHexAux : Nat → Nat → List Char
  | 0, _ => []
  | _ + 1, 0 => []
  | fuel + 1, n + 1 =>
      natToHexAux fuel ((n + 1) / 16) ++ [hexDigitChar ((n + 1) % 16)]

/-- Lowercase hex rendering of a natural number, no prefix, no leading
zeros, matching the Rust lowercase-hex formatter on unsigned values. -/
def natToHex (n : Nat) : List Char :=
  if n = 0 then str "0" else natToHexAux n n

/-- Numeric value of a hex-digit character; 16 marks a non-hex-digit. -/
def hexDigitVal (c : Char) : Nat :=
  if 48 ≤ c.toNat ∧ c.toNat ≤ 57 then c.toNat - 48
  else if 97 ≤ c.toNat ∧ c.toNat ≤ 102 then c.toNat - 87
  else if 65 ≤ c.toNat ∧ c.toNat ≤ 70 then c.toNat - 55
  else 16

/-- Whether a character is a hexadecimal digit. -/
def isHexDigitC (c : Char) : Bool := hexDigitVal c < 16

/-- Value of a big-endian hex digit string, starting from accumulator a. -/
def hexValList (l : List Char) (a : Nat) : Nat :=
  l.foldl (fun x c => 16 * x + hexDigitVal c) a

/-- Read a maximal leading run of hex digits, returning its value
(added onto the accumulator positionally) and the unread remainder. -/
def takeHexAux : List Char → Nat → Nat × List Char
  | [], a => (a, [])
  | c :: cs, a =>
      if isHexDigitC c then takeHexAux cs (16 * a + hexDigitVal c) else (a, c :: cs)

/-! ## Generic string helpers (split, substring, prefix trimming) -/

/-- Split a character list at every occurrence of c, like Rust split:
n separators yield n+1 pieces, so the result is never empty. -/
def splitOnC (c : Char) : List Char → List (List Char)
  | [] => [[]]
  | x :: xs =>
      if x = c then [] :: splitOnC c xs
      else
        match splitOnC c xs with
        | [] => [[x]]
        | y :: ys => (x :: y) :: ys

/-- Rust split_terminator: like split, but a single trailing empty piece
(produced when the input ends with the separator, or is empty) is dropped. -/
def splitTerminator (c : Char) (s : List Char) : List (List Char) :=
  let ps := splitOnC c s
  if ps.getLast? = some [] then ps.dropLast else ps

/-- Substring containment test, Rust str::contains for literal patterns. -/
def hasSub : List Char → List Char → Bool
  | [], p => p.isEmpty
  | h :: t, p => p.isPrefixOf (h :: t) || hasSub t p

/-- Fueled worker for trimStartMatches; fuel at least the string length
always suffices since each step removes a nonempty prefix. -/
def trimStartAux : Nat → List Char → List Char → List Char
  | 0, _, s => s
  | fuel + 1, p, s =>
      if !p.isEmpty && p.isPrefixOf s then trimStartAux fuel p (s.drop p.length) else s

/-- Rust str::trim_start_matches: repeatedly strip the pattern while it
is a prefix. -/
def trimStartMatches (p s : List Char) : List Char :=
  trimStartAux s.length p s

/-! ## utils.rs: layout computation and serialization -/

/-- LayoutSizes from utils.rs: the six byte offsets derived from the ROM
size (all Rust i64). -/
structure LayoutSizes where
  half_sz : Int
  quad_sz : Int
  rom_top : Int
  bottom_half_top : Int
  bottom_quad_top : Int
  top_quad_bottom : Int
deriving DecidableEq, Repr

/-- The four partition names from utils.rs. -/
inductive LayoutNames
  | TopQuad
  | TopHalf
  | BottomHalf
  | BottomQuad
deriving DecidableEq, Repr

/-- get_layout_sizes from utils.rs: reject a non-positive or odd rom
size, otherwise derive the six offsets with i64 truncated division. -/
def get_layout_sizes (rom_sz : Int) : Except (List Char) LayoutSizes :=
  if rom_sz ≤ 0 then Except.error (str "invalid rom size provided")
  else if Int.tmod rom_sz 2 ≠ 0 then
    Except.error (str "invalid rom size, not a power of 2")
  else
    Except.ok
      { half_sz := Int.tdiv rom_sz 2
        quad_sz := Int.tdiv rom_sz 4
        rom_top := rom_sz - 1
        bottom_half_top := Int.tdiv rom_sz 2 - 1
        bottom_quad_top := Int.tdiv rom_sz 4 - 1
        top_quad_bottom := Int.tdiv rom_sz 4 * 3 }

/-- layout_section from utils.rs: (name, start offset, length) of one of
the four partitions. -/
def layout_section (ls : LayoutSizes) (ln : LayoutNames) : List Char × Int × Int :=
  match ln with
  | LayoutNames.TopQuad => (str "TOP_QUAD", ls.top_quad_bottom, ls.quad_sz)
  | LayoutNames.TopHalf => (str "TOP_HALF", ls.half_sz, ls.half_sz)
  | LayoutNames.BottomHalf => (str "BOTTOM_HALF", 0, ls.half_sz)
  | LayoutNames.BottomQuad => (str "BOTTOM_QUAD", 0, ls.quad_sz)

/-- Rust lowercase-hex formatting of an i64: the two's-complement bit
pattern of the value rendered as an unsigned hex numeral. -/
def fmt_hex (v : Int) : List Char :=
  natToHex (Int.toNat (v % 2 ^ 64))

/-- One writeln into the layout file buffer: the line, a newline, then
the rest of the buffer. -/
def writelnTo (line rest : List Char) : List Char := line ++ '\n' :: rest

/-- The BOTTOM_QUAD line written by construct_layout_file. -/
def bottomQuadLine (ls : LayoutSizes) : List Char :=
  str "000000:" ++ fmt_hex ls.bottom_quad_top ++ str " BOTTOM_QUAD"

/-- The BOTTOM_HALF line written by construct_layout_file. -/
def bottomHalfLine (ls : LayoutSizes) : List Char :=
  str "000000:" ++ fmt_hex ls.bottom_half_top ++ str " BOTTOM_HALF"

/-- The TOP_HALF line written by construct_layout_file. -/
def topHalfLine (ls : LayoutSizes) : List Char :=
  fmt_hex ls.half_sz ++ str ":" ++ fmt_hex ls.rom_top ++ str " TOP_HALF"

/-- The TOP_QUAD line written by construct_layout_file. -/
def topQuadLine (ls : LayoutSizes) : List Char :=
  fmt_hex ls.top_quad_bottom ++ str ":" ++ fmt_hex ls.rom_top ++ str " TOP_QUAD"

/-- construct_layout_file from utils.rs: the text written to the layout
descriptor file, four writeln calls in the fixed order. -/
def construct_layout_file (ls : LayoutSizes) : List Char :=
  writelnTo (bottomQuadLine ls)
    (writelnTo (bottomHalfLine ls)
      (writelnTo (topHalfLine ls)
        (writelnTo (topQuadLine ls) [])))

/-! ## Layout descriptor reading (spec-modelled) -/

/-- Modelled from the spec: one line of the layout descriptor wire format
of section 6, start-hex and end-hex separated by a colon, then a space
and the partition name.  The repository only writes this file; the
reader lives in the external flashing utility, so it is not under src. -/
def parseLayoutLine (l : List Char) : Option (List Char × Int × Int) :=
  match takeHexAux l 0 with
  | (a, rest) =>
    match rest with
    | ':' :: rest2 =>
      match takeHexAux rest2 0 with
      | (b, rest3) =>
        match rest3 with
        | ' ' :: name => some (name, (a : Int), (b : Int))
        | _ => none
    | _ => none

/-- Modelled from the spec: read every line of a layout descriptor,
failing if any line is malformed. -/
def parseLines : List (List Char) → Option (List (List Char × Int × Int))
  | [] => some []
  | l :: ls =>
      match parseLayoutLine l, parseLines ls with
      | some t, some ts => some (t :: ts)
      | _, _ => none

/-- Modelled from the spec: read a whole layout descriptor back as
(name, start, end) tuples, one per line. -/
def parseLayout (content : List Char) : Option (List (List Char × Int × Int)) :=
  parseLines (splitTerminator '\n' content)

/-- The inclusive (name, start, end) tuple of a (name, start, length)
layout section. -/
def sectionTuple (s : List Char × Int × Int) : List Char × Int × Int :=
  (s.1, s.2.1, s.2.1 + s.2.2 - 1)

/-- The four section tuples of a layout, in the order the descriptor
file is written. -/
def layoutTuples (ls : LayoutSizes) : List (List Char × Int × Int) :=
  [sectionTuple (layout_section ls LayoutNames.BottomQuad),
   sectionTuple (layout_section ls LayoutNames.BottomHalf),
   sectionTuple (layout_section ls LayoutNames.TopHalf),
   sectionTuple (layout_section ls LayoutNames.TopQuad)]

/-! ## utils.rs: crossystem output parsing -/

/-- Rust u32 parse of a one-character string, as applied by
parse_crosssystem to the first character of the state value. -/
def parseDigitU32 (c : Char) : Option Nat :=
  if 48 ≤ c.toNat ∧ c.toNat ≤ 57 then some (c.toNat - 48) else none

/-- parse_crosssystem from utils.rs.  The outer Option models panics:
none is a panic, and some carries the Result the function returns.  The
source unwraps the first wpsw_cur line and the first character of its
value, so both unwraps appear here as none branches. -/
def parse_crosssystem (s : List Char) :
    Option (Except (List Char) (List (List Char) × Bool)) :=
  let sysinfo := (splitTerminator '\n' s).filter
    (fun l => !hasSub l (str "fwid +=") && !hasSub l (str "hwid +="))
  let wp_s := sysinfo.filter (fun l => hasSub l (str "wpsw_cur"))
  match wp_s.head? with
  | none => none
  | some line =>
    let v1 := trimStartMatches (str "wpsw_cur") line
    let v2 := trimStartMatches (str " ") v1
    let v3 := trimStartMatches (str "=") v2
    let v4 := trimStartMatches (str " ") v3
    match v4.head? with
    | none => none
    | some c =>
      match parseDigitU32 c with
      | some v =>
        if v = 1 then some (Except.ok (sysinfo, true))
        else if v = 0 then some (Except.ok (sysinfo, false))
        else some (Except.error (str "Unknown state value"))
      | none => some (Except.error (str "Cannot parse state value"))

/-! ## tester.rs: outcome decoding and test sequencing -/

/-- TestConclusion from tester.rs. -/
inductive TestConclusion
  | Pass
  | Fail
  | UnexpectedPass
  | UnexpectedFail
deriving DecidableEq, Repr

/-- FlashChip from types.rs. -/
inductive FlashChip
  | EC
  | HOST
  | SERVOv2
  | DEDIPROG
deriving DecidableEq, Repr

/-- TestParams from tester.rs.  The command handle and the pre and post
hooks return unit and cannot influence the pure result of a run, so only
the fields the sequencer reads are carried. -/
structure TestParams where
  fc : FlashChip
  log_text : Option (List Char)
deriving Repr

/-- TestCase from tester.rs: a named scenario with its declared
conclusion for the Ok outcome.  Errors are boxed error strings. -/
structure TestCase where
  name : List Char
  test_fn : TestParams → Except (List Char) Unit
  params : TestParams
  conclusion : TestConclusion

/-- decode_test_result from tester.rs: reconcile the actual result
against the declared conclusion. -/
def decode_test_result {ε : Type} (res : Except ε Unit) (con : TestConclusion) :
    TestConclusion × Option ε :=
  match res, con with
  | Except.ok _, TestConclusion.Fail => (TestConclusion.UnexpectedPass, none)
  | Except.error e, TestConclusion.Pass => (TestConclusion.UnexpectedFail, some e)
  | _, _ => (TestConclusion.Pass, none)

/-- run_test from tester.rs: run the scenario body on its params and
decode the result.  Logging and the unit-returning pre and post hooks
have no bearing on the returned value. -/
def run_test (t : TestCase) : TestConclusion × Option (List Char) :=
  decode_test_result (t.test_fn t.params) t.conclusion

/-- run_all_tests from tester.rs: run every case in order, pushing one
(name, outcome) pair per case. -/
def run_all_tests : List TestCase → List (List Char × TestConclusion × Option (List Char))
  | [] => []
  | t :: ts => (t.name, run_test t) :: run_all_tests ts

/-! ## flashrom.rs and cmd.rs: option sets and the gateway -/

/-- WPOpt from flashrom.rs. -/
structure WPOpt where
  range : Option (Int × Int) := none
  status : Bool := false
  list : Bool := false
  enable : Bool := false
  disable : Bool := false
deriving DecidableEq, Repr

/-- IOOpt from flashrom.rs. -/
structure IOOpt where
  read : Option (List Char) := none
  write : Option (List Char) := none
  verify : Option (List Char) := none
  erase : Bool := false
deriving DecidableEq, Repr

/-- FlashromOpt from flashrom.rs. -/
structure FlashromOpt where
  wp_opt : WPOpt := {}
  io_opt : IOOpt := {}
  layout : Option (List Char) := none
  image : Option (List Char) := none
  flash_name : Bool := false
  ignore_fmap : Bool := false
  verbose : Bool := false
deriving DecidableEq, Repr

/-- Uppercase hex digits of a positive number, fueled like natToHexAux. -/
def natToHexUpperAux : Nat → Nat → List Char
  | 0, _ => []
  | _ + 1, 0 => []
  | fuel + 1, n + 1 =>
      natToHexUpperAux fuel ((n + 1) / 16) ++
        [if (n + 1) % 16 < 10 then Char.ofNat (48 + (n + 1) % 16)
         else Char.ofNat (55 + (n + 1) % 16)]

/-- Uppercase hex rendering of a natural number without leading zeros. -/
def natToHexUpper (n : Nat) : List Char :=
  if n = 0 then str "0" else natToHexUpperAux n n

/-- hex_string from utils.rs: 0x followed by the two's-complement
uppercase hex of the i64, zero-padded to at least six digits. -/
def hex_string (v : Int) : List Char :=
  let digits := natToHexUpper (Int.toNat (v % 2 ^ 64))
  str "0x" ++ (List.replicate (6 - digits.length) '0' ++ digits)

/-- The wp_opt block of flashrom_decode_opts: the range pushes followed
by the status, list, enable, disable else-if chain. -/
def wpOptArgs (w : WPOpt) : List (List Char) :=
  (match w.range with
   | some (x0, x1) => [str "--wp-range", hex_string x0, hex_string x1]
   | none => []) ++
  (if w.status then [str "--wp-status"]
   else if w.list then [str "--wp-list"]
   else if w.enable then [str "--wp-enable"]
   else if w.disable then [str "--wp-disable"]
   else [])

/-- The io_opt block of flashrom_decode_opts: the read, write, verify,
erase else-if chain. -/
def ioOptArgs (io : IOOpt) : List (List Char) :=
  match io.read with
  | some f => [str "-r", f]
  | none =>
    match io.write with
    | some f => [str "-w", f]
    | none =>
      match io.verify with
      | some f => [str "-v", f]
      | none => if io.erase then [str "-E"] else []

/-- The misc_opt block of flashrom_decode_opts: layout, image and the
three flag options. -/
def miscOptArgs (opts : FlashromOpt) : List (List Char) :=
  (match opts.layout with
   | some f => [str "-l", f]
   | none => []) ++
  (match opts.image with
   | some f => [str "-i", f]
   | none => []) ++
  (if opts.flash_name then [str "--flash-name"] else []) ++
  (if opts.ignore_fmap then [str "--ignore-fmap"] else []) ++
  (if opts.verbose then [str "-V"] else [])

/-- flashrom_decode_opts from cmd.rs: translate an option set into the
flat argument list; the pushes of the wp_opt, io_opt and misc_opt source
blocks appear in that order. -/
def flashrom_decode_opts (opts : FlashromOpt) : List (List Char) :=
  wpOptArgs opts.wp_opt ++ ioOptArgs opts.io_opt ++ miscOptArgs opts

/-- Environment for flashrom.rs workers: the hardware write-protect line
state of the platform, the reply of flashrom to --get-size, and the
reply of flashrom to any dispatched option set (stdout, stderr). -/
structure Env where
  hardware : Bool
  size : Except (List Char) Int
  dispatch : FlashromOpt → Except (List Char) (List Char × List Char)

/-- The option set wp_toggle dispatches for a disable request. -/
def wpDisableOpts : FlashromOpt :=
  { wp_opt := { range := none, enable := false, disable := true } }

/-- The option set wp_status dispatches. -/
def wpStatusOpts : FlashromOpt :=
  { wp_opt := { status := true } }

/-- wp_status from flashrom.rs: dispatch a status request and test the
stdout for the sentinel substring.  The second component records the
dispatched option sets. -/
def wp_status (env : Env) (en : Bool) :
    Except (List Char) Bool × List FlashromOpt :=
  let status := if en then str "en" else str "dis"
  match env.dispatch wpStatusOpts with
  | Except.ok (stdout, _) =>
      (Except.ok (hasSub stdout (str "write protect is " ++ status ++ str "abled")),
       [wpStatusOpts])
  | Except.error e => (Except.error e, [wpStatusOpts])

/-- wp_toggle from flashrom.rs: for enable, query the chip size first and
pass a full range; dispatch the toggle; then re-run wp_status, returning
Ok true whenever the status query itself succeeded.  The second
component records the dispatched option sets, in order. -/
def wp_toggle (env : Env) (en : Bool) :
    Except (List Char) Bool × List FlashromOpt :=
  let status := if en then str "en" else str "dis"
  match (if en then env.size.map (fun sz => some ((0 : Int), sz)) else Except.ok none) with
  | Except.error e => (Except.error e, [])
  | Except.ok range =>
    let opts : FlashromOpt := { wp_opt := { range := range, enable := en, disable := !en } }
    match env.dispatch opts with
    | Except.error e => (Except.error e, [opts])
    | Except.ok _ =>
      match wp_status env true with
      | (Except.ok _ret, calls) => (Except.ok true, opts :: calls)
      | (Except.error e, calls) =>
          (Except.error (str "Cannot " ++ status ++ str "able write-protect: " ++ e),
           opts :: calls)

/-! ## Write-protect controller state (spec-modelled) -/

/-- Modelled from the spec: the WriteProtectState pair of section 3.  The
write-protect controller of section 4.3, with its stack of saved states
for push and pop, is described by the spec but absent from src. -/
structure WriteProtectState where
  hardware : Bool
  software : Bool
deriving DecidableEq, Repr

/-- Modelled from the spec: the controller owns the current state and a
stack of saved states for push and pop around sub-scenarios. -/
structure WpController where
  state : WriteProtectState
  saved : List WriteProtectState
deriving DecidableEq, Repr

/-- Modelled from the spec: push saves the full current pair onto the
stack. -/
def pushWp (c : WpController) : WpController :=
  { c with saved := c.state :: c.saved }

/-- Modelled from the spec: pop restores the most recently saved pair;
with nothing saved it leaves the controller unchanged. -/
def popWp (c : WpController) : WpController :=
  match c.saved with
  | [] => c
  | s :: rest => { state := s, saved := rest }

/-- Modelled from the spec: an intermediate mutation changes the current
hardware and software pair in any way, leaving the stack alone. -/
def mutateWp (f : WriteProtectState → WriteProtectState) (c : WpController) : WpController :=
  { c with state := f c.state }

/-- Apply a sequence of intermediate mutations in order. -/
def applyMutations : List (WriteProtectState → WriteProtectState) → WpController → WpController
  | [], c => c
  | f :: fs, c => applyMutations fs (mutateWp f c)

/-! ## Values used by the claim statements -/

/-- The four io-operation request flags of the external utility. -/
def ioFlags : List (List Char) := [str "-r", str "-w", str "-v", str "-E"]

/-- How many io-operation flags an argument list contains. -/
def ioFlagCount (l : List (List Char)) : Nat :=
  l.countP (fun a => decide (a ∈ ioFlags))

/-- The string-valued fields of an option set: the file paths and
selector names the caller chose freely. -/
def optPathValues (opts : FlashromOpt) : List (List Char) :=
  opts.io_opt.read.toList ++ opts.io_opt.write.toList ++ opts.io_opt.verify.toList ++
    opts.layout.toList ++ opts.image.toList

/-- A character list is a hexadecimal numeral (no 0x prefix) denoting v:
nonempty, all hex digits, and of value v. -/
def isHexNum (l : List Char) (v : Int) : Prop :=
  l ≠ [] ∧ (∀ c ∈ l, isHexDigitC c = true) ∧ ((hexValList l 0 : Nat) : Int) = v

/-- A layout descriptor line of the form start-hex colon end-hex space
name, denoting the inclusive range from s to e. -/
def lineOfForm (l name : List Char) (s e : Int) : Prop :=
  ∃ a b, l = a ++ ':' :: (b ++ ' ' :: name) ∧ isHexNum a s ∧ isHexNum b e

/-- The LayoutSizes the code computes for a 2-byte ROM. -/
def ls2 : LayoutSizes :=
  { half_sz := 1, quad_sz := 0, rom_top := 1, bottom_half_top := 0,
    bottom_quad_top := -1, top_quad_bottom := 0 }

/-- The LayoutSizes the code computes for a 6-byte ROM. -/
def ls6 : LayoutSizes :=
  { half_sz := 3, quad_sz := 1, rom_top := 5, bottom_half_top := 2,
    bottom_quad_top := 0, top_quad_bottom := 3 }

/-- The LayoutSizes the code computes for a 4096-byte ROM. -/
def ls4096 : LayoutSizes :=
  { half_sz := 2048, quad_sz := 1024, rom_top := 4095, bottom_half_top := 2047,
    bottom_quad_top := 1023, top_quad_bottom := 3072 }

/-- Shared params for the three concrete scenarios of the sequencing
claim. -/
def exampleParams : TestParams := { fc := FlashChip.HOST, log_text := none }

/-- Scenario one: expected Pass, and the body succeeds. -/
def scenarioOne : TestCase :=
  { name := str "one", test_fn := fun _ => Except.ok (),
    params := exampleParams, conclusion := TestConclusion.Pass }

/-- Scenario two: expected Fail, and the body errors. -/
def scenarioTwo : TestCase :=
  { name := str "two", test_fn := fun _ => Except.error (str "anticipated failure"),
    params := exampleParams, conclusion := TestConclusion.Fail }

/-- Scenario three: expected Pass, and the body errors. -/
def scenarioThree : TestCase :=
  { name := str "three", test_fn := fun _ => Except.error (str "surprise failure"),
    params := exampleParams, conclusion := TestConclusion.Pass }

/-- An environment with hardware write-protect asserted whose external
utility accepts every request. -/
def permissiveEnv : Env :=
  { hardware := true, size := Except.ok 8388608,
    dispatch := fun _ => Except.ok (str "", str "") }

/-- A concrete option set requesting a read into a file. -/
def readOnlyOpts : FlashromOpt :=
  { io_opt := { read := some (str "/tmp/flashrom_tester_read.dat") } }

/-! ## Helper lemmas: hexadecimal digits -/

theorem hexDigitVal_hexDigitChar {d : Nat} (h : d < 16) :
    hexDigitVal (hexDigitChar d) = d := by
  interval_cases d <;> decide

theorem isHexDigitC_hexDigitChar {d : Nat} (h : d < 16) :
    isHexDigitC (hexDigitChar d) = true := by
  interval_cases d <;> decide

theorem ne_nl_of_isHexDigitC {c : Char} (h : isHexDigitC c = true) : c ≠ '\n' := by
  intro hc
  rw [hc] at h
  exact absurd h (by decide)

theorem natToHexAux_hex :
    ∀ fuel n c, c ∈ natToHexAux fuel n → isHexDigitC c = true := by
  intro fuel
  induction fuel with
  | zero =>
    intro n c h
    simp [natToHexAux] at h
  | succ f ih =>
    intro n c h
    match n with
    | 0 => simp [natToHexAux] at h
    | m + 1 =>
      rw [natToHexAux] at h
      rcases List.mem_append.mp h with h | h
      · exact ih _ _ h
      · rw [List.mem_singleton] at h
        subst h
        exact isHexDigitC_hexDigitChar (Nat.mod_lt _ (by omega))

theorem hexValList_cons (c : Char) (l : List Char) (a : Nat) :
    hexValList (c :: l) a = hexValList l (16 * a + hexDigitVal c) := rfl

theorem natToHexAux_val :
    ∀ fuel n, n ≤ fuel →
      ∀ a, hexValList (natToHexAux fuel n) a = a * 16 ^ (natToHexAux fuel n).length + n := by
  intro fuel
  induction fuel with
  | zero =>
    intro n hn a
    interval_cases n
    simp [natToHexAux, hexValList]
  | succ f ih =>
    intro n hn a
    match n with
    | 0 => simp [natToHexAux, hexValList]
    | m + 1 =>
      rw [natToHexAux]
      have hq : (m + 1) / 16 ≤ f := by omega
      have hrec := ih ((m + 1) / 16) hq a
      unfold hexValList at hrec ⊢
      rw [List.foldl_append, hrec]
      simp only [List.foldl_cons, List.foldl_nil, List.length_append, List.length_cons,
        List.length_nil]
      rw [hexDigitVal_hexDigitChar (Nat.mod_lt _ (by omega))]
      rw [pow_succ, ← Nat.mul_assoc]
      omega

theorem natToHex_hex (n : Nat) : ∀ c ∈ natToHex n, isHexDigitC c = true := by
  intro c h
  unfold natToHex at h
  split at h
  · rw [show str "0" = ['0'] from rfl, List.mem_singleton] at h
    subst h
    decide
  · exact natToHexAux_hex n n c h

theorem natToHex_val (n : Nat) : hexValList (natToHex n) 0 = n := by
  unfold natToHex
  split
  · subst ‹n = 0›
    decide
  · rw [natToHexAux_val n n le_rfl 0]
    simp

theorem natToHex_ne_nil (n : Nat) : natToHex n ≠ [] := by
  unfold natToHex
  split
  · decide
  · intro h
    have := natToHexAux_val n n le_rfl 0
    rw [h] at this
    simp [hexValList] at this
    omega

/-! ## Helper lemmas: fmt_hex on in-range values -/

theorem fmt_hex_hex (v : Int) : ∀ c ∈ fmt_hex v, isHexDigitC c = true :=
  natToHex_hex _

theorem fmt_hex_ne_nil (v : Int) : fmt_hex v ≠ [] :=
  natToHex_ne_nil _

theorem fmt_hex_val {v : Int} (h0 : 0 ≤ v) (h1 : v < 2 ^ 64) :
    ((hexValList (fmt_hex v) 0 : Nat) : Int) = v := by
  unfold fmt_hex
  rw [natToHex_val, Int.emod_eq_of_lt h0 h1, Int.toNat_of_nonneg h0]

theorem nl_not_mem_fmt_hex (v : Int) : '\n' ∉ fmt_hex v := by
  intro h
  exact ne_nl_of_isHexDigitC (fmt_hex_hex v '\n' h) rfl

theorem isHexNum_fmt_hex {v : Int} (h0 : 0 ≤ v) (h1 : v < 2 ^ 64) :
    isHexNum (fmt_hex v) v :=
  ⟨fmt_hex_ne_nil v, fmt_hex_hex v, fmt_hex_val h0 h1⟩

/-! ## Helper lemmas: reading hex runs back -/

theorem takeHexAux_append (d : List Char) :
    ∀ rest : List Char, (∀ c ∈ d, isHexDigitC c = true) →
      (∀ c, rest.head? = some c → isHexDigitC c = false) →
      ∀ a, takeHexAux (d ++ rest) a = (hexValList d a, rest) := by
  induction d with
  | nil =>
    intro rest _ hrest a
    cases rest with
    | nil => rfl
    | cons c cs =>
      simp only [List.nil_append, takeHexAux, hrest c rfl]
      rfl
  | cons c cs ih =>
    intro rest hd hrest a
    simp only [List.cons_append, takeHexAux, hd c (List.mem_cons_self c cs), if_pos]
    exact ih rest (fun x hx => hd x (List.mem_cons_of_mem c hx)) hrest _

theorem parseLayoutLine_mk (a b name : List Char)
    (ha : ∀ c ∈ a, isHexDigitC c = true) (hb : ∀ c ∈ b, isHexDigitC c = true) :
    parseLayoutLine (a ++ ':' :: (b ++ ' ' :: name)) =
      some (name, ((hexValList a 0 : Nat) : Int), ((hexValList b 0 : Nat) : Int)) := by
  unfold parseLayoutLine
  rw [takeHexAux_append a (':' :: (b ++ ' ' :: name)) ha
    (by intro c hc; simp only [List.head?_cons, Option.some.injEq] at hc; subst hc; decide) 0]
  simp only
  rw [takeHexAux_append b (' ' :: name) hb
    (by intro c hc; simp only [List.head?_cons, Option.some.injEq] at hc; subst hc; decide) 0]
  rfl

/-! ## Helper lemmas: line splitting -/

theorem splitOnC_ne_nil (c : Char) (l : List Char) : splitOnC c l ≠ [] := by
  induction l with
  | nil => simp [splitOnC]
  | cons x xs ih =>
    unfold splitOnC
    split
    · simp
    · split
      · simp
      · simp

theorem splitOnC_append (c : Char) (pre : List Char) :
    ∀ rest, c ∉ pre → splitOnC c (pre ++ c :: rest) = pre :: splitOnC c rest := by
  induction pre with
  | nil =>
    intro rest _
    simp [splitOnC]
  | cons x xs ih =>
    intro rest h
    have hx : x ≠ c := fun he => h (he ▸ List.mem_cons_self x xs)
    have hxs : c ∉ xs := fun hm => h (List.mem_cons_of_mem x hm)
    simp only [List.cons_append]
    rw [splitOnC, if_neg hx, ih rest hxs]

theorem splitTerminator_four (l1 l2 l3 l4 : List Char)
    (h1 : '\n' ∉ l1) (h2 : '\n' ∉ l2) (h3 : '\n' ∉ l3) (h4 : '\n' ∉ l4) :
    splitTerminator '\n'
        (writelnTo l1 (writelnTo l2 (writelnTo l3 (writelnTo l4 [])))) =
      [l1, l2, l3, l4] := by
  unfold splitTerminator writelnTo
  rw [splitOnC_append _ _ _ h1, splitOnC_append _ _ _ h2, splitOnC_append _ _ _ h3,
    splitOnC_append _ _ _ h4]
  simp [splitOnC]

/-! ## Helper lemmas: the four layout lines -/

theorem bottomQuadLine_eq (ls : LayoutSizes) :
    bottomQuadLine ls =
      str "000000" ++ ':' :: (fmt_hex ls.bottom_quad_top ++ ' ' :: str "BOTTOM_QUAD") := rfl

theorem bottomHalfLine_eq (ls : LayoutSizes) :
    bottomHalfLine ls =
      str "000000" ++ ':' :: (fmt_hex ls.bottom_half_top ++ ' ' :: str "BOTTOM_HALF") := rfl

theorem topHalfLine_eq (ls : LayoutSizes) :
    topHalfLine ls =
      fmt_hex ls.half_sz ++ ':' :: (fmt_hex ls.rom_top ++ ' ' :: str "TOP_HALF") := by
  unfold topHalfLine
  rw [show str ":" = [':'] from rfl, show str " TOP_HALF" = ' ' :: str "TOP_HALF" from rfl]
  simp [List.append_assoc]

theorem topQuadLine_eq (ls : LayoutSizes) :
    topQuadLine ls =
      fmt_hex ls.top_quad_bottom ++ ':' :: (fmt_hex ls.rom_top ++ ' ' :: str "TOP_QUAD") := by
  unfold topQuadLine
  rw [show str ":" = [':'] from rfl, show str " TOP_QUAD" = ' ' :: str "TOP_QUAD" from rfl]
  simp [List.append_assoc]

theorem nl_not_mem_layout_line {u v w : List Char} (hu : '\n' ∉ u) (hw : '\n' ∉ w)
    (hv : ∀ c ∈ v, isHexDigitC c = true) :
    '\n' ∉ u ++ ':' :: (v ++ ' ' :: w) := by
  intro h
  simp only [List.mem_append, List.mem_cons] at h
  rcases h with h | h | h | h | h
  · exact hu h
  · exact absurd h (by decide)
  · exact ne_nl_of_isHexDigitC (hv '\n' h) rfl
  · exact absurd h (by decide)
  · exact hw h

theorem parse_layout_line (u v w : List Char) (s e : Int)
    (hu : isHexNum u s) (hv : isHexNum v e) :
    parseLayoutLine (u ++ ':' :: (v ++ ' ' :: w)) = some (w, s, e) := by
  rw [parseLayoutLine_mk u v w hu.2.1 hv.2.1, hu.2.2, hv.2.2]

/-! ## Helper lemmas: the successful layout computation -/

theorem get_layout_sizes_ok {r : Int} (h1 : 0 < r) (h2 : Int.tmod r 2 = 0) :
    get_layout_sizes r = Except.ok
      { half_sz := Int.tdiv r 2, quad_sz := Int.tdiv r 4, rom_top := r - 1,
        bottom_half_top := Int.tdiv r 2 - 1, bottom_quad_top := Int.tdiv r 4 - 1,
        top_quad_bottom := Int.tdiv r 4 * 3 } := by
  unfold get_layout_sizes
  rw [if_neg (by omega), if_neg (by simp [h2])]

theorem tdiv_two_eq {r : Int} (h1 : 0 < r) : Int.tdiv r 2 = r / 2 :=
  Int.tdiv_eq_ediv (le_of_lt h1) (by norm_num)

theorem tdiv_four_eq {r : Int} (h1 : 0 < r) : Int.tdiv r 4 = r / 4 :=
  Int.tdiv_eq_ediv (le_of_lt h1) (by norm_num)

/-! ## Sequencing helpers -/

theorem run_all_tests_index (ts : List TestCase) (i : Nat) :
    (run_all_tests ts)[i]? = ts[i]?.map fun t => (t.name, run_test t) := by
  induction ts generalizing i with
  | nil => simp [run_all_tests]
  | cons t ts ih =>
    cases i with
    | zero => simp [run_all_tests]
    | succ n => simpa [run_all_tests] using ih n

theorem applyMutations_saved (ms : List (WriteProtectState → WriteProtectState)) :
    ∀ c : WpController, (applyMutations ms c).saved = c.saved := by
  induction ms with
  | nil => intro c; rfl
  | cons f fs ih =>
    intro c
    rw [applyMutations, ih (mutateWp f c)]
    rfl

/-! ## The layout file splits back into its four lines -/

theorem nl_not_mem_bottomQuadLine (ls : LayoutSizes) : '\n' ∉ bottomQuadLine ls := by
  rw [bottomQuadLine_eq]
  exact nl_not_mem_layout_line (by decide) (by decide) (fmt_hex_hex _)

theorem nl_not_mem_bottomHalfLine (ls : LayoutSizes) : '\n' ∉ bottomHalfLine ls := by
  rw [bottomHalfLine_eq]
  exact nl_not_mem_layout_line (by decide) (by decide) (fmt_hex_hex _)

theorem nl_not_mem_topHalfLine (ls : LayoutSizes) : '\n' ∉ topHalfLine ls := by
  rw [topHalfLine_eq]
  exact nl_not_mem_layout_line (nl_not_mem_fmt_hex _) (by decide) (fmt_hex_hex _)

theorem nl_not_mem_topQuadLine (ls : LayoutSizes) : '\n' ∉ topQuadLine ls := by
  rw [topQuadLine_eq]
  exact nl_not_mem_layout_line (nl_not_mem_fmt_hex _) (by decide) (fmt_hex_hex _)

theorem splitTerminator_construct (ls : LayoutSizes) :
    splitTerminator '\n' (construct_layout_file ls) =
      [bottomQuadLine ls, bottomHalfLine ls, topHalfLine ls, topQuadLine ls] :=
  splitTerminator_four _ _ _ _ (nl_not_mem_bottomQuadLine ls) (nl_not_mem_bottomHalfLine ls)
    (nl_not_mem_topHalfLine ls) (nl_not_mem_topQuadLine ls)

/-! ## Claim theorems -/

/-- C2: the outcome reconciliation function maps success with expected
Pass to Pass, success with expected Fail to UnexpectedPass, an error with
expected Pass to UnexpectedFail retaining the error, and an error with
expected Fail to Pass discarding the error; the retained-error component
is none in every case except an error with expected Pass. -/
theorem decode_test_result_table (e : List Char) :
    decode_test_result (Except.ok ()) TestConclusion.Pass
        = (TestConclusion.Pass, (none : Option (List Char))) ∧
    decode_test_result (Except.ok ()) TestConclusion.Fail
        = (TestConclusion.UnexpectedPass, (none : Option (List Char))) ∧
    decode_test_result (Except.error e) TestConclusion.Pass
        = (TestConclusion.UnexpectedFail, some e) ∧
    decode_test_result (Except.error e) TestConclusion.Fail
        = (TestConclusion.Pass, (none : Option (List Char))) :=
  ⟨rfl, rfl, rfl, rfl⟩

/-- C3: for every positive even rom size the layout computation succeeds
with quad equal to rom size over four and half equal to rom size over
two, and the produced sections have top quad starting at three quads,
top half starting at half, and both bottom sections starting at zero. -/
theorem get_layout_sizes_formulas (r : Int) (h1 : 0 < r) (h2 : Int.tmod r 2 = 0) :
    ∃ ls, get_layout_sizes r = Except.ok ls ∧
      ls.quad_sz = r / 4 ∧ ls.half_sz = r / 2 ∧
      (layout_section ls LayoutNames.TopQuad).2.1 = 3 * (r / 4) ∧
      (layout_section ls LayoutNames.TopHalf).2.1 = r / 2 ∧
      (layout_section ls LayoutNames.BottomHalf).2.1 = 0 ∧
      (layout_section ls LayoutNames.BottomQuad).2.1 = 0 := by
  refine ⟨_, get_layout_sizes_ok h1 h2, ?_, ?_, ?_, ?_, rfl, rfl⟩ <;>
    simp [layout_section, tdiv_two_eq h1, tdiv_four_eq h1, mul_comm]

/-- Witness: C3 applied at rom size 4096. -/
theorem get_layout_sizes_formulas_witness :
    (0 : Int) < 4096 ∧ Int.tmod 4096 2 = 0 ∧
      (∃ ls, get_layout_sizes 4096 = Except.ok ls ∧
        ls.quad_sz = (4096 : Int) / 4 ∧ ls.half_sz = (4096 : Int) / 2 ∧
        (layout_section ls LayoutNames.TopQuad).2.1 = 3 * ((4096 : Int) / 4) ∧
        (layout_section ls LayoutNames.TopHalf).2.1 = (4096 : Int) / 2 ∧
        (layout_section ls LayoutNames.BottomHalf).2.1 = 0 ∧
        (layout_section ls LayoutNames.BottomQuad).2.1 = 0) :=
  ⟨by decide, by decide, get_layout_sizes_formulas 4096 (by decide) (by decide)⟩

/-- C4: the layout computation fails exactly on the non-positive or odd
rom sizes, and returns a LayoutSizes value for every other rom size. -/
theorem get_layout_sizes_invalid_iff (r : Int) :
    ((∃ e, get_layout_sizes r = Except.error e) ↔ r ≤ 0 ∨ Odd r) ∧
    ((∃ ls, get_layout_sizes r = Except.ok ls) ↔ 0 < r ∧ ¬Odd r) := by
  unfold get_layout_sizes
  by_cases h1 : r ≤ 0
  · rw [if_pos h1]
    constructor
    · exact ⟨fun _ => Or.inl h1, fun _ => ⟨_, rfl⟩⟩
    · constructor
      · rintro ⟨ls, h⟩
        exact absurd h (by simp)
      · rintro ⟨hr, -⟩
        omega
  · rw [if_neg h1]
    have hm : Int.tmod r 2 = r % 2 := Int.tmod_eq_emod (by omega) (by norm_num)
    by_cases h2 : Int.tmod r 2 ≠ 0
    · rw [if_pos h2]
      have hodd : Odd r := by
        rw [Int.odd_iff]
        omega
      constructor
      · exact ⟨fun _ => Or.inr hodd, fun _ => ⟨_, rfl⟩⟩
      · constructor
        · rintro ⟨ls, h⟩
          exact absurd h (by simp)
        · rintro ⟨-, hno⟩
          exact absurd hodd hno
    · rw [if_neg h2]
      push_neg at h2
      have hnodd : ¬Odd r := by
        rw [Int.odd_iff]
        omega
      constructor
      · constructor
        · rintro ⟨e, h⟩
          exact absurd h (by simp)
        · rintro (h | h)
          · exact absurd h h1
          · exact absurd h hnodd
      · exact ⟨fun _ => ⟨by omega, hnodd⟩, fun _ => ⟨_, rfl⟩⟩

/-- C7: run_all_tests returns one (name, outcome) pair per registered
case, in registration order, and on the concrete sequence of an expected
Pass that succeeds, an expected Fail that errors, and an expected Pass
that errors, it yields Pass, Pass, UnexpectedFail in order with only the
third error retained. -/
theorem run_all_tests_order_and_outcomes :
    (∀ (ts : List TestCase) (i : Nat),
        (run_all_tests ts)[i]? = ts[i]?.map fun t => (t.name, run_test t)) ∧
    run_all_tests [scenarioOne, scenarioTwo, scenarioThree] =
      [(str "one", TestConclusion.Pass, none),
       (str "two", TestConclusion.Pass, none),
       (str "three", TestConclusion.UnexpectedFail, some (str "surprise failure"))] :=
  ⟨run_all_tests_index, rfl⟩

/-- C8: a push followed by a later pop restores exactly the hardware and
software pair saved at the push, whatever mutations of the state happen
in between.  Spec-modelled: the push and pop stack of the write-protect
controller is described by the spec but absent from src. -/
theorem push_pop_restores (s : WriteProtectState) (saved : List WriteProtectState)
    (ms : List (WriteProtectState → WriteProtectState)) :
    popWp (applyMutations ms (pushWp ⟨s, saved⟩)) = ⟨s, saved⟩ := by
  have h := applyMutations_saved ms (pushWp ⟨s, saved⟩)
  rcases hc : applyMutations ms (pushWp ⟨s, saved⟩) with ⟨st, sv⟩
  rw [hc] at h
  simp only [pushWp] at h
  subst h
  rfl

/-- C9: contrary to the claim that every status parse returns an error
result, parse_crosssystem panics (modelled as none) on crossystem output
with no wpsw_cur line, such as the empty output of an unsupported
platform, and also on a wpsw_cur line with an empty value. -/
theorem parse_crosssystem_panics :
    parse_crosssystem (str "") = none ∧
    parse_crosssystem (str "fwid = X") = none ∧
    parse_crosssystem (str "wpsw_cur") = none :=
  ⟨rfl, rfl, rfl⟩

/-- C5 (amended): for every LayoutSizes computed from an even rom size of
at least 4 (within i64 range), serializing produces exactly four lines in
the order BOTTOM_QUAD, BOTTOM_HALF, TOP_HALF, TOP_QUAD, each of the form
start-hex colon end-hex space name with offsets as plain hex numerals and
ends inclusive at quad-1, half-1, rom-1 and rom-1.  Amended from every
valid rom size: at rom size 2 the BOTTOM_QUAD end quad-1 is negative and
is written as its two's-complement hex pattern, not as the offset. -/
theorem construct_layout_file_wire_format (r : Int) (ls : LayoutSizes)
    (h4 : 4 ≤ r) (h2 : Int.tmod r 2 = 0) (hw : r ≤ 9223372036854775807)
    (hok : get_layout_sizes r = Except.ok ls) :
    splitTerminator '\n' (construct_layout_file ls) =
      [bottomQuadLine ls, bottomHalfLine ls, topHalfLine ls, topQuadLine ls] ∧
    lineOfForm (bottomQuadLine ls) (str "BOTTOM_QUAD") 0 (r / 4 - 1) ∧
    lineOfForm (bottomHalfLine ls) (str "BOTTOM_HALF") 0 (r / 2 - 1) ∧
    lineOfForm (topHalfLine ls) (str "TOP_HALF") (r / 2) (r - 1) ∧
    lineOfForm (topQuadLine ls) (str "TOP_QUAD") (3 * (r / 4)) (r - 1) := by
  have h1 : (0 : Int) < r := by omega
  have hp : (2 : Int) ^ 64 = 18446744073709551616 := by norm_num
  have hls : ls =
      { half_sz := r / 2, quad_sz := r / 4, rom_top := r - 1,
        bottom_half_top := r / 2 - 1, bottom_quad_top := r / 4 - 1,
        top_quad_bottom := r / 4 * 3 } := by
    rw [get_layout_sizes_ok h1 h2] at hok
    injection hok with h
    rw [← h, tdiv_two_eq h1, tdiv_four_eq h1]
  subst hls
  refine ⟨splitTerminator_construct _, ?_, ?_, ?_, ?_⟩
  · rw [bottomQuadLine_eq]
    dsimp only
    exact ⟨str "000000", _, rfl, ⟨by decide, by decide, by decide⟩,
      isHexNum_fmt_hex (by omega) (by rw [hp]; omega)⟩
  · rw [bottomHalfLine_eq]
    dsimp only
    exact ⟨str "000000", _, rfl, ⟨by decide, by decide, by decide⟩,
      isHexNum_fmt_hex (by omega) (by rw [hp]; omega)⟩
  · rw [topHalfLine_eq]
    dsimp only
    exact ⟨_, _, rfl, isHexNum_fmt_hex (by omega) (by rw [hp]; omega),
      isHexNum_fmt_hex (by omega) (by rw [hp]; omega)⟩
  · rw [topQuadLine_eq]
    dsimp only
    refine ⟨_, _, rfl, ⟨fmt_hex_ne_nil _, fmt_hex_hex _, ?_⟩,
      isHexNum_fmt_hex (by omega) (by rw [hp]; omega)⟩
    rw [fmt_hex_val (show (0 : Int) ≤ r / 4 * 3 by omega)
      (show r / 4 * 3 < 2 ^ 64 by rw [hp]; omega)]
    ring

/-- Witness: C5 amended applied at rom size 4096. -/
theorem construct_layout_file_wire_format_witness :
    (4 : Int) ≤ 4096 ∧ Int.tmod 4096 2 = 0 ∧
      (4096 : Int) ≤ 9223372036854775807 ∧
      get_layout_sizes 4096 = Except.ok ls4096 ∧
      (splitTerminator '\n' (construct_layout_file ls4096) =
        [bottomQuadLine ls4096, bottomHalfLine ls4096, topHalfLine ls4096,
         topQuadLine ls4096] ∧
       lineOfForm (bottomQuadLine ls4096) (str "BOTTOM_QUAD") 0 ((4096 : Int) / 4 - 1) ∧
       lineOfForm (bottomHalfLine ls4096) (str "BOTTOM_HALF") 0 ((4096 : Int) / 2 - 1) ∧
       lineOfForm (topHalfLine ls4096) (str "TOP_HALF") ((4096 : Int) / 2) (4096 - 1) ∧
       lineOfForm (topQuadLine ls4096) (str "TOP_QUAD") (3 * ((4096 : Int) / 4)) (4096 - 1)) :=
  ⟨by decide, by decide, by decide, rfl,
    construct_layout_file_wire_format 4096 ls4096 (by decide) (by decide) (by decide) rfl⟩

/-- C5 counterexample: the LayoutSizes computed for the valid rom size 2
serializes its BOTTOM_QUAD line with end field ffffffffffffffff, the
two's-complement pattern of quad-1 = -1, which is not a hex numeral
denoting the inclusive end offset quad-1. -/
theorem construct_layout_file_negative_end :
    get_layout_sizes 2 = Except.ok ls2 ∧
    splitTerminator '\n' (construct_layout_file ls2) =
      [str "000000:ffffffffffffffff BOTTOM_QUAD", str "000000:0 BOTTOM_HALF",
       str "1:1 TOP_HALF", str "0:1 TOP_QUAD"] ∧
    ¬lineOfForm (str "000000:ffffffffffffffff BOTTOM_QUAD") (str "BOTTOM_QUAD") 0
      (ls2.quad_sz - 1) := by
  refine ⟨rfl, by decide, ?_⟩
  rintro ⟨a, b, -, -, ⟨-, -, hv⟩⟩
  simp only [ls2] at hv
  omega

/-- C6 (amended): for every rom size divisible by four (within i64 range)
the serialized layout parses back to exactly the four inclusive (name,
start, end) tuples of the four layout sections, in file order.  Amended
from every positive even rom size: for sizes congruent to 2 mod 4 the
TOP_QUAD line ends at rom-1 while the TOP_QUAD section of length quad
ends at 3*quad + quad - 1 < rom - 1, so the tuples disagree. -/
theorem layout_roundtrip (r : Int) (ls : LayoutSizes)
    (hpos : 0 < r) (h4 : r % 4 = 0) (hw : r ≤ 9223372036854775807)
    (hok : get_layout_sizes r = Except.ok ls) :
    parseLayout (construct_layout_file ls) = some (layoutTuples ls) := by
  have hp : (2 : Int) ^ 64 = 18446744073709551616 := by norm_num
  have hm2 : Int.tmod r 2 = r % 2 := Int.tmod_eq_emod (by omega) (by norm_num)
  have h2 : Int.tmod r 2 = 0 := by omega
  have hls : ls =
      { half_sz := r / 2, quad_sz := r / 4, rom_top := r - 1,
        bottom_half_top := r / 2 - 1, bottom_quad_top := r / 4 - 1,
        top_quad_bottom := r / 4 * 3 } := by
    rw [get_layout_sizes_ok hpos h2] at hok
    injection hok with h
    rw [← h, tdiv_two_eq hpos, tdiv_four_eq hpos]
  subst hls
  have p1 : parseLayoutLine (bottomQuadLine
      { half_sz := r / 2, quad_sz := r / 4, rom_top := r - 1,
        bottom_half_top := r / 2 - 1, bottom_quad_top := r / 4 - 1,
        top_quad_bottom := r / 4 * 3 }) = some (str "BOTTOM_QUAD", 0, r / 4 - 1) := by
    rw [bottomQuadLine_eq]
    dsimp only
    exact parse_layout_line _ _ _ _ _ ⟨by decide, by decide, by decide⟩
      (isHexNum_fmt_hex (by omega) (by rw [hp]; omega))
  have p2 : parseLayoutLine (bottomHalfLine
      { half_sz := r / 2, quad_sz := r / 4, rom_top := r - 1,
        bottom_half_top := r / 2 - 1, bottom_quad_top := r / 4 - 1,
        top_quad_bottom := r / 4 * 3 }) = some (str "BOTTOM_HALF", 0, r / 2 - 1) := by
    rw [bottomHalfLine_eq]
    dsimp only
    exact parse_layout_line _ _ _ _ _ ⟨by decide, by decide, by decide⟩
      (isHexNum_fmt_hex (by omega) (by rw [hp]; omega))
  have p3 : parseLayoutLine (topHalfLine
      { half_sz := r / 2, quad_sz := r / 4, rom_top := r - 1,
        bottom_half_top := r / 2 - 1, bottom_quad_top := r / 4 - 1,
        top_quad_bottom := r / 4 * 3 }) = some (str "TOP_HALF", r / 2, r - 1) := by
    rw [topHalfLine_eq]
    dsimp only
    exact parse_layout_line _ _ _ _ _
      (isHexNum_fmt_hex (by omega) (by rw [hp]; omega))
      (isHexNum_fmt_hex (by omega) (by rw [hp]; omega))
  have p4 : parseLayoutLine (topQuadLine
      { half_sz := r / 2, quad_sz := r / 4, rom_top := r - 1,
        bottom_half_top := r / 2 - 1, bottom_quad_top := r / 4 - 1,
        top_quad_bottom := r / 4 * 3 }) = some (str "TOP_QUAD", r / 4 * 3, r - 1) := by
    rw [topQuadLine_eq]
    dsimp only
    exact parse_layout_line _ _ _ _ _
      (isHexNum_fmt_hex (by omega) (by rw [hp]; omega))
      (isHexNum_fmt_hex (by omega) (by rw [hp]; omega))
  unfold parseLayout
  rw [splitTerminator_construct]
  rw [parseLines, p1, parseLines, p2, parseLines, p3, parseLines, p4, parseLines]
  simp only [layoutTuples, sectionTuple, layout_section, Option.some.injEq,
    List.cons.injEq, Prod.mk.injEq, and_true, true_and]
  omega

/-- Witness: C6 amended applied at rom size 4096. -/
theorem layout_roundtrip_witness :
    (0 : Int) < 4096 ∧ (4096 : Int) % 4 = 0 ∧
      (4096 : Int) ≤ 9223372036854775807 ∧
      get_layout_sizes 4096 = Except.ok ls4096 ∧
      parseLayout (construct_layout_file ls4096) = some (layoutTuples ls4096) :=
  ⟨by decide, by decide, by decide, rfl,
    layout_roundtrip 4096 ls4096 (by decide) (by decide) (by decide) rfl⟩

/-- C6 counterexample: the rom size 6 is positive and even, yet parsing
the serialized layout back does not reproduce the section tuples: the
TOP_QUAD line reads 3:5 while the TOP_QUAD section of length quad ends
at 3. -/
theorem layout_roundtrip_fails_mod4 :
    get_layout_sizes 6 = Except.ok ls6 ∧
    parseLayout (construct_layout_file ls6) ≠ some (layoutTuples ls6) :=
  ⟨rfl, by decide⟩

/-- C1 counterexample: in a state with hardware write-protect asserted,
wp_toggle with en false does not fail with any error: it dispatches the
underlying utility call (two dispatches, the disable and the following
status query) and returns Ok true. -/
theorem wp_toggle_ignores_hardware :
    permissiveEnv.hardware = true ∧
    (wp_toggle permissiveEnv false).1 = Except.ok true ∧
    (wp_toggle permissiveEnv false).2 = [wpDisableOpts, wpStatusOpts] :=
  ⟨rfl, rfl, rfl⟩

/-- C1 (amended): wp_toggle with en false performs no hardware
write-protect check at all: its result is independent of the hardware
state, the first thing it does is dispatch the underlying wp-disable
call, and no HardwareBlocksSoftware error exists; whether software
write-protect changes is left entirely to the external utility. -/
theorem wp_toggle_no_hardware_check (hw hw' : Bool) (sz : Except (List Char) Int)
    (d : FlashromOpt → Except (List Char) (List Char × List Char)) :
    wp_toggle ⟨hw, sz, d⟩ false = wp_toggle ⟨hw', sz, d⟩ false ∧
    (wp_toggle ⟨hw, sz, d⟩ false).2.head? = some wpDisableOpts := by
  refine ⟨rfl, ?_⟩
  have hred : wp_toggle ⟨hw, sz, d⟩ false =
      (match d wpDisableOpts with
       | Except.error e => (Except.error e, [wpDisableOpts])
       | Except.ok _ =>
         match wp_status ⟨hw, sz, d⟩ true with
         | (Except.ok _r, calls) => (Except.ok true, wpDisableOpts :: calls)
         | (Except.error e, calls) =>
             (Except.error (str "Cannot " ++ str "dis" ++ str "able write-protect: " ++ e),
              wpDisableOpts :: calls)) := rfl
  rw [hred]
  rcases d wpDisableOpts with e | p
  · rfl
  · rcases wp_status ⟨hw, sz, d⟩ true with ⟨res, calls⟩
    rcases res with e2 | b
    · rfl
    · rfl

/-! ## Argument-count helpers for the gateway -/

theorem ioFlagCount_append (l1 l2 : List (List Char)) :
    ioFlagCount (l1 ++ l2) = ioFlagCount l1 + ioFlagCount l2 :=
  List.countP_append _ _ _

theorem ioFlagCount_eq_zero (l : List (List Char)) (h : ∀ a ∈ l, a ∉ ioFlags) :
    ioFlagCount l = 0 := by
  unfold ioFlagCount
  rw [List.countP_eq_zero]
  intro a ha
  simp [h a ha]

theorem hex_string_not_io_flag (v : Int) : hex_string v ∉ ioFlags := by
  intro h
  have h0 : (hex_string v).head? = some '0' := rfl
  simp only [ioFlags, List.mem_cons, List.not_mem_nil, or_false] at h
  rcases h with h | h | h | h <;> rw [h] at h0 <;> exact absurd h0 (by decide)

theorem ioFlagCount_wpOptArgs (w : WPOpt) : ioFlagCount (wpOptArgs w) = 0 := by
  obtain ⟨rng, st, li, en, di⟩ := w
  apply ioFlagCount_eq_zero
  intro a ha
  simp only [wpOptArgs] at ha
  rcases List.mem_append.mp ha with h | h
  · rcases rng with _ | ⟨x0, x1⟩
    · exact absurd h (List.not_mem_nil a)
    · rcases List.mem_cons.mp h with rfl | h2
      · decide
      · rcases List.mem_cons.mp h2 with rfl | h3
        · exact hex_string_not_io_flag x0
        · rcases List.mem_cons.mp h3 with rfl | h4
          · exact hex_string_not_io_flag x1
          · exact absurd h4 (List.not_mem_nil a)
  · rcases st <;> rcases li <;> rcases en <;> rcases di <;>
      simp only [Bool.false_eq_true, if_true, if_false, ite_true, ite_false] at h <;>
      first
        | exact absurd h (List.not_mem_nil a)
        | (rcases List.mem_cons.mp h with rfl | h2
           · decide
           · exact absurd h2 (List.not_mem_nil a))

theorem ioFlagCount_pair (flag f : List Char) (hf : f ∉ ioFlags) :
    ioFlagCount [flag, f] ≤ 1 := by
  unfold ioFlagCount
  simp only [List.countP_cons, List.countP_nil, decide_eq_true_eq]
  rw [if_neg hf]
  split_ifs <;> omega

theorem ioFlagCount_ioOptArgs (io : IOOpt)
    (h : ∀ f ∈ io.read.toList ++ io.write.toList ++ io.verify.toList, f ∉ ioFlags) :
    ioFlagCount (ioOptArgs io) ≤ 1 := by
  obtain ⟨rd, wr, vf, er⟩ := io
  rcases rd with _ | f1
  · rcases wr with _ | f2
    · rcases vf with _ | f3
      · rcases er <;> decide
      · exact ioFlagCount_pair _ f3 (h f3 (by simp))
    · exact ioFlagCount_pair _ f2 (h f2 (by simp))
  · exact ioFlagCount_pair _ f1 (h f1 (by simp))

theorem ioFlagCount_miscOptArgs (opts : FlashromOpt)
    (h : ∀ f ∈ opts.layout.toList ++ opts.image.toList, f ∉ ioFlags) :
    ioFlagCount (miscOptArgs opts) = 0 := by
  apply ioFlagCount_eq_zero
  intro a ha
  unfold miscOptArgs at ha
  rcases List.mem_append.mp ha with ha | ha
  · rcases List.mem_append.mp ha with ha | ha
    · rcases List.mem_append.mp ha with ha | ha
      · rcases List.mem_append.mp ha with ha | ha
        · rcases hl : opts.layout with _ | f
          · rw [hl] at ha
            exact absurd ha (List.not_mem_nil a)
          · rw [hl] at ha
            rcases List.mem_cons.mp ha with rfl | h2
            · decide
            · rcases List.mem_cons.mp h2 with rfl | h3
              · exact h a (by simp [hl])
              · exact absurd h3 (List.not_mem_nil a)
        · rcases hl : opts.image with _ | f
          · rw [hl] at ha
            exact absurd ha (List.not_mem_nil a)
          · rw [hl] at ha
            rcases List.mem_cons.mp ha with rfl | h2
            · decide
            · rcases List.mem_cons.mp h2 with rfl | h3
              · exact h a (by simp [hl])
              · exact absurd h3 (List.not_mem_nil a)
      · rcases hb : opts.flash_name
        · rw [hb] at ha
          exact absurd ha (by simp)
        · rw [hb] at ha
          have he : a = str "--flash-name" := by simpa using ha
          subst he
          decide
    · rcases hb : opts.ignore_fmap
      · rw [hb] at ha
        exact absurd ha (by simp)
      · rw [hb] at ha
        have he : a = str "--ignore-fmap" := by simpa using ha
        subst he
        decide
  · rcases hb : opts.verbose
    · rw [hb] at ha
      exact absurd ha (by simp)
    · rw [hb] at ha
      have he : a = str "-V" := by simpa using ha
      subst he
      decide

/-- C10: for every option configuration, the translated flat argument
list contains at most one io-operation request flag among read, write,
verify and erase, provided the caller-chosen path and selector strings
are not themselves io flags. -/
theorem flashrom_decode_opts_single_io (opts : FlashromOpt)
    (h : ∀ f ∈ optPathValues opts, f ∉ ioFlags) :
    ioFlagCount (flashrom_decode_opts opts) ≤ 1 := by
  unfold flashrom_decode_opts
  rw [ioFlagCount_append, ioFlagCount_append]
  have h1 := ioFlagCount_wpOptArgs opts.wp_opt
  have h2 : ioFlagCount (ioOptArgs opts.io_opt) ≤ 1 :=
    ioFlagCount_ioOptArgs opts.io_opt (fun f hf => h f (by
      simp only [optPathValues, List.mem_append] at hf ⊢
      tauto))
  have h3 : ioFlagCount (miscOptArgs opts) = 0 :=
    ioFlagCount_miscOptArgs opts (fun f hf => h f (by
      simp only [optPathValues, List.mem_append] at hf ⊢
      tauto))
  omega

/-- Witness: C10 applied at a concrete option set requesting a read. -/
theorem flashrom_decode_opts_single_io_witness :
    (∀ f ∈ optPathValues readOnlyOpts, f ∉ ioFlags) ∧
      ioFlagCount (flashrom_decode_opts readOnlyOpts) ≤ 1 :=
  ⟨by decide, flashrom_decode_opts_single_io readOnlyOpts (by decide)⟩

end CrosFlashrom
